import Mathlib

/-
Verification of the gomatrix sync-response reducer (`sync.go`) against its
natural-language specification.

The Go code is shallowly embedded: Go maps become association lists with
`mapLookup` / `mapSet` / `mapDelete` (Go-map semantics: lookup of the first
binding, in-place overwrite, deletion of all bindings of a key), Go slices
become `List`, the in-place mutation of the caller's `*RespSync` and of the
syncer become explicit state passing, and Go panics become `Except.error`
values so that the `defer`/`recover` boundary of `ProcessResponse` can be
modelled by where errors are caught.  Listener callbacks are modelled by a
handle (`id`) plus a `behavior` function saying on which events the callback
panics; a successful run of the reducer produces the trace of listener
invocations (handle, event) in invocation order.
-/

set_option autoImplicit false

namespace Gomatrix

/-- JSON-like values appearing in an event's `Content` map.  Only the
distinction "a string" versus "anything else" is observable in `sync.go`
(the `m.(string)` type assertion), so other shapes are collapsed. -/
inductive JsonV where
  | str : String → JsonV
  | other : JsonV
deriving DecidableEq, Repr

/-- Go-map lookup on an association list: first binding of the key. -/
def mapLookup {κ α : Type} [DecidableEq κ] : List (κ × α) → κ → Option α
  | [], _ => none
  | (k', v) :: rest, k => if k' = k then some v else mapLookup rest k

/-- Go-map assignment on an association list: overwrite the first binding,
or append a new binding when the key is absent. -/
def mapSet {κ α : Type} [DecidableEq κ] : List (κ × α) → κ → α → List (κ × α)
  | [], k, v => [(k, v)]
  | (k', v') :: rest, k, v =>
    if k' = k then (k, v) :: rest else (k', v') :: mapSet rest k v

/-- Go-map `delete` on an association list: remove every binding of the key. -/
def mapDelete {κ α : Type} [DecidableEq κ] (m : List (κ × α)) (k : κ) : List (κ × α) :=
  m.filter (fun p => if p.1 = k then false else true)

/-- Modelled from the spec: the `Event` record (its Go definition is not under
`src/`).  "An immutable record with: type (string), optional state-key
(string ...), room identifier (stamped by the reducer ...), sender, and an
open content payload (mapping from string to arbitrary structured value)."
Exactly the fields `sync.go` reads are kept. -/
structure Event where
  stateKey : String
  sender : String
  etype : String
  roomID : String
  content : List (String × JsonV)
deriving DecidableEq, Repr

/-- Modelled from the spec: a `Room` holds `State`, a "mapping from
(event-type, state-key) pair to the latest event with that pair"
(`rooms.go` is not under `src/`). -/
structure Room where
  ID : String
  State : List ((String × String) × Event)
deriving DecidableEq, Repr

/-- Modelled from the spec: `NewRoom` creates a room with empty state. -/
def NewRoom (roomID : String) : Room :=
  { ID := roomID, State := [] }

/-- Modelled from the spec: `Room.UpdateState` "merges one state event,
overwriting any prior event with the same (type, state-key)"
(last-write-wins per pair; `rooms.go` is not under `src/`). -/
def Room.UpdateState (room : Room) (event : Event) : Room :=
  { room with State := mapSet room.State (event.etype, event.stateKey) event }

/-- Modelled from the spec: the timeline block of a joined room in a
sync response (`responses.go` is not under `src/`). -/
structure TimelineBlock where
  Events : List Event
deriving DecidableEq, Repr

/-- Modelled from the spec: the state block of a room in a sync response. -/
structure StateBlock where
  Events : List Event
deriving DecidableEq, Repr

/-- Modelled from the spec: the per-joined-room data of a sync response:
"a state-event list and a timeline-event list". -/
structure JoinedRoomData where
  State : StateBlock
  Timeline : TimelineBlock
deriving DecidableEq, Repr

/-- Modelled from the spec: the per-invited-room data of a sync response:
"a state-event list (stripped state)". -/
structure InvitedRoomData where
  State : StateBlock
deriving DecidableEq, Repr

/-- Modelled from the spec: the rooms section of a sync response.  The Go
maps keyed by room identifier become association lists. -/
structure SyncRooms where
  Join : List (String × JoinedRoomData)
  Invite : List (String × InvitedRoomData)
deriving DecidableEq, Repr

/-- Modelled from the spec: the raw incremental sync response. -/
structure RespSync where
  NextBatch : String
  Rooms : SyncRooms
deriving DecidableEq, Repr

/-- A listener callback (`OnEventListener` in `sync.go`): an opaque handle
`id` for observing invocation order, and a `behavior` describing on which
events the callback panics (`some msg`) versus returns normally (`none`). -/
structure Listener where
  id : Nat
  behavior : Event → Option String

/-- The `DefaultSyncer` struct of `sync.go` (the storer fields are outside
the reducer and are omitted): identity, the Room State Table, and the
listener registry keyed by event type. -/
structure DefaultSyncer where
  UserID : String
  Rooms : List (String × Room)
  listeners : List (String × List Listener)

/-- The error built by the `recover` branch of `ProcessResponse`:
`fmt.Errorf("ProcessResponse panicked! userID=%s since=%s panic=%s ...")`
carries the identity, the cursor, and the panic payload. -/
structure ProcessError where
  userID : String
  since : String
  panicMsg : String
deriving DecidableEq, Repr

/-- The observable outcome of one `ProcessResponse` call: normal return
(final syncer, the caller's possibly-mutated response, and the trace of
listener invocations), an error returned after `recover` caught a panic
(the caller's response is mutated by then as well), or an uncaught panic
escaping the function. -/
inductive Outcome where
  | ok : DefaultSyncer → Option RespSync → List (Nat × Event) → Outcome
  | err : ProcessError → Option RespSync → Outcome
  | panicked : String → Outcome

/-- The response object as the caller sees it after the call (`none` when
the call never returns because a panic escaped). -/
def Outcome.respOf : Outcome → Option RespSync
  | Outcome.ok _ r _ => r
  | Outcome.err _ r => r
  | Outcome.panicked _ => none

/-- The Go runtime's panic message for dereferencing a nil pointer, raised
by `resp.Rooms` when `resp` is nil. -/
def nilDerefMsg : String :=
  "runtime error: invalid memory address or nil pointer dereference"

/-- `m := e.Content["membership"]; mship, ok := m.(string)` from
`shouldProcessResponse` (sync.go:110-112): the membership field as a string,
`none` when the key is absent (Go yields the nil interface) or holds a
non-string value (the type assertion's `ok` is false). -/
def membershipString (e : Event) : Option String :=
  match mapLookup e.content "membership" with
  | some (JsonV.str s) => some s
  | _ => none

/-- The inner backward loop of `shouldProcessResponse` (sync.go:107-127) for
one joined room, applied to the room's timeline ALREADY REVERSED (head =
most recent event).  On a self-membership event: a non-string membership is
skipped (`continue`); membership "join" deletes the room from both maps and
breaks; any other membership falls through and the loop continues to older
events. -/
def scanBack (userID roomID : String) (rooms : SyncRooms) : List Event → SyncRooms
  | [] => rooms
  | e :: older =>
    if e.etype = "m.room.member" ∧ e.stateKey = userID then
      match membershipString e with
      | none => scanBack userID roomID rooms older
      | some mship =>
        if mship = "join" then
          if (mapLookup rooms.Join roomID).isSome then
            { Join := mapDelete rooms.Join roomID, Invite := mapDelete rooms.Invite roomID }
          else
            scanBack userID roomID rooms older
        else
          scanBack userID roomID rooms older
    else
      scanBack userID roomID rooms older

/-- The outer loop of `shouldProcessResponse` over the joined rooms of the
response.  Go iterates the `Join` map while deleting from it; each iteration
only ever deletes its own key, so folding over the original binding list is
faithful. -/
def suppressLoop (userID : String) : List (String × JoinedRoomData) → SyncRooms → SyncRooms
  | [], rooms => rooms
  | (roomID, rd) :: rest, rooms =>
    suppressLoop userID rest (scanBack userID roomID rooms rd.Timeline.Events.reverse)

/-- The replay-suppression pass of `shouldProcessResponse` (sync.go:107-127):
the mutation it performs on `resp.Rooms`. -/
def suppressReplays (userID : String) (rooms : SyncRooms) : SyncRooms :=
  suppressLoop userID rooms.Join rooms

/-- `shouldProcessResponse` (sync.go:96-129).  Returns the boolean together
with the response as mutated in place; the response pointer may be nil, and
dereferencing it (`resp.Rooms.Join`) panics, modelled as `Except.error`. -/
def shouldProcessResponse (s : DefaultSyncer) (resp : Option RespSync) (since : String) :
    Except String (Bool × Option RespSync) :=
  if since = "" then Except.ok (false, resp)
  else
    match resp with
    | none => Except.error nilDerefMsg
    | some r => Except.ok (true, some { r with Rooms := suppressReplays s.UserID r.Rooms })

/-- The loop body of `notifyListeners` (sync.go:145-148): invoke each
listener in list order; a panicking listener aborts the remaining
invocations. -/
def runListeners (e : Event) : List Listener → Except String (List (Nat × Event))
  | [] => Except.ok []
  | l :: rest =>
    match l.behavior e with
    | some msg => Except.error msg
    | none =>
      match runListeners e rest with
      | Except.error f => Except.error f
      | Except.ok t => Except.ok ((l.id, e) :: t)

/-- `notifyListeners` (sync.go:141-149): look up the listeners registered
for the event's type (an unknown type is a no-op) and invoke each in
registration order. -/
def DefaultSyncer.notifyListeners (s : DefaultSyncer) (e : Event) :
    Except String (List (Nat × Event)) :=
  match mapLookup s.listeners e.etype with
  | none => Except.ok []
  | some ls => runListeners e ls

/-- `getOrCreateRoom` (sync.go:132-139): the room the processing loops work
on.  The insertion of a fresh room into the table is performed by the
write-back in the processing loops (the Go code mutates the shared `*Room`
in place; the model writes the final room value back under the same key). -/
def DefaultSyncer.getOrCreateRoom (s : DefaultSyncer) (roomID : String) : Room :=
  match mapLookup s.Rooms roomID with
  | some room => room
  | none => NewRoom roomID

/-- `event.RoomID = roomID`: the reducer stamps the room identifier onto the
event before merging/dispatching it. -/
def stamp (e : Event) (roomID : String) : Event :=
  { e with roomID := roomID }

/-- The state-event loop of `ProcessResponse` (sync.go:63-67): stamp, merge
into the room, dispatch.  A listener panic aborts the loop. -/
def processStateEvents (s : DefaultSyncer) (roomID : String) :
    Room → List Event → Except String (Room × List (Nat × Event))
  | room, [] => Except.ok (room, [])
  | room, ev :: rest =>
    let ev' := stamp ev roomID
    let room' := room.UpdateState ev'
    match s.notifyListeners ev' with
    | Except.error f => Except.error f
    | Except.ok t =>
      match processStateEvents s roomID room' rest with
      | Except.error f => Except.error f
      | Except.ok (rfin, tr) => Except.ok (rfin, t ++ tr)

/-- The timeline-event loop of `ProcessResponse` (sync.go:68-71): stamp and
dispatch only — timeline events are not merged into room state. -/
def processTimelineEvents (s : DefaultSyncer) (roomID : String) :
    List Event → Except String (List (Nat × Event))
  | [] => Except.ok []
  | ev :: rest =>
    let ev' := stamp ev roomID
    match s.notifyListeners ev' with
    | Except.error f => Except.error f
    | Except.ok t =>
      match processTimelineEvents s roomID rest with
      | Except.error f => Except.error f
      | Except.ok tr => Except.ok (t ++ tr)

/-- The joined-rooms loop of `ProcessResponse` (sync.go:61-72): per room,
get-or-create the room, process state events, write the room back, process
timeline events, continue with the remaining rooms. -/
def processJoin : DefaultSyncer → List (String × JoinedRoomData) →
    Except String (DefaultSyncer × List (Nat × Event))
  | s, [] => Except.ok (s, [])
  | s, (roomID, rd) :: rest =>
    let room := s.getOrCreateRoom roomID
    match processStateEvents s roomID room rd.State.Events with
    | Except.error f => Except.error f
    | Except.ok (room', t1) =>
      let s' := { s with Rooms := mapSet s.Rooms roomID room' }
      match processTimelineEvents s' roomID rd.Timeline.Events with
      | Except.error f => Except.error f
      | Except.ok t2 =>
        match processJoin s' rest with
        | Except.error f => Except.error f
        | Except.ok (sfin, tr) => Except.ok (sfin, t1 ++ t2 ++ tr)

/-- The invited-rooms loop of `ProcessResponse` (sync.go:73-80): per room,
get-or-create, process the stripped state events, write the room back. -/
def processInvite : DefaultSyncer → List (String × InvitedRoomData) →
    Except String (DefaultSyncer × List (Nat × Event))
  | s, [] => Except.ok (s, [])
  | s, (roomID, rd) :: rest =>
    let room := s.getOrCreateRoom roomID
    match processStateEvents s roomID room rd.State.Events with
    | Except.error f => Except.error f
    | Except.ok (room', t1) =>
      let s' := { s with Rooms := mapSet s.Rooms roomID room' }
      match processInvite s' rest with
      | Except.error f => Except.error f
      | Except.ok (sfin, tr) => Except.ok (sfin, t1 ++ tr)

/-- The part of `ProcessResponse` guarded by the `defer`/`recover` boundary
(sync.go:61-81): joined rooms first, then invited rooms. -/
def processBody (s : DefaultSyncer) (r : RespSync) :
    Except String (DefaultSyncer × List (Nat × Event)) :=
  match processJoin s r.Rooms.Join with
  | Except.error f => Except.error f
  | Except.ok (s1, t1) =>
    match processInvite s1 r.Rooms.Invite with
    | Except.error f => Except.error f
    | Except.ok (s2, t2) => Except.ok (s2, t1 ++ t2)

/-- `ProcessResponse` (sync.go:50-82).  `shouldProcessResponse` runs first;
a panic raised there escapes uncaught (`Outcome.panicked`) because the
`defer`/`recover` is installed only afterwards.  A panic raised in the body
is recovered and converted to a `ProcessError` naming the identity and the
cursor. -/
def ProcessResponse (s : DefaultSyncer) (resp : Option RespSync) (since : String) : Outcome :=
  match shouldProcessResponse s resp since with
  | Except.error f => Outcome.panicked f
  | Except.ok (false, r) => Outcome.ok s r []
  | Except.ok (true, none) =>
    Outcome.err { userID := s.UserID, since := since, panicMsg := nilDerefMsg } none
  | Except.ok (true, some r) =>
    match processBody s r with
    | Except.error f =>
      Outcome.err { userID := s.UserID, since := since, panicMsg := f } (some r)
    | Except.ok (s', tr) => Outcome.ok s' (some r) tr

/-- `OnEventType` (sync.go:86-92): registration appends the callback to the
(possibly freshly created) list for the event type. -/
def DefaultSyncer.OnEventType (s : DefaultSyncer) (eventType : String) (callback : Listener) :
    DefaultSyncer :=
  let cur := match mapLookup s.listeners eventType with
    | none => []
    | some ls => ls
  { s with listeners := mapSet s.listeners eventType (cur ++ [callback]) }

/-- `time.Second` in nanoseconds (Go `time.Duration` is an integer count of
nanoseconds). -/
def timeSecond : Nat := 1000000000

/-- `OnFailedSync` (sync.go:161-164): always a 10 second wait and no
terminal error.  The error argument is the message of the failed sync's
error. -/
def DefaultSyncer.OnFailedSync (_s : DefaultSyncer) (_res : Option RespSync) (_err : String) :
    Nat × Option String :=
  (10 * timeSecond, none)

/-! Derived descriptions used only in theorem statements: the fault-free
behaviour of the loops above, as plain functions of the response. -/

/-- The invocations `notifyListeners` performs for one event when no
listener panics: the registered listeners of the event's type, in
registration order. -/
def dispatchTrace (s : DefaultSyncer) (e : Event) : List (Nat × Event) :=
  match mapLookup s.listeners e.etype with
  | none => []
  | some ls => ls.map (fun l => (l.id, e))

/-- The fault-free trace of dispatching a list of events of one room, in
list order, each stamped with the room identifier. -/
def traceOfEvents (s : DefaultSyncer) (roomID : String) : List Event → List (Nat × Event)
  | [] => []
  | e :: rest => dispatchTrace s (stamp e roomID) ++ traceOfEvents s roomID rest

/-- The fault-free trace of the joined-rooms loop: per room, all state
events strictly before all timeline events, each list in response order. -/
def joinTrace (s : DefaultSyncer) : List (String × JoinedRoomData) → List (Nat × Event)
  | [] => []
  | (roomID, rd) :: rest =>
    traceOfEvents s roomID rd.State.Events ++ traceOfEvents s roomID rd.Timeline.Events
      ++ joinTrace s rest

/-- The fault-free trace of the invited-rooms loop. -/
def inviteTrace (s : DefaultSyncer) : List (String × InvitedRoomData) → List (Nat × Event)
  | [] => []
  | (roomID, rd) :: rest => traceOfEvents s roomID rd.State.Events ++ inviteTrace s rest

/-- Folding a room's state events into its state (stamped, last-write-wins
per (type, state-key)); the timeline never appears here. -/
def roomAfterState (roomID : String) (room : Room) (evs : List Event) : Room :=
  evs.foldl (fun rm e => rm.UpdateState (stamp e roomID)) room

/-- The room `getOrCreateRoom` works on, as a function of a room table:
the stored room, or a fresh one. -/
def roomOrNew (rooms : List (String × Room)) (roomID : String) : Room :=
  match mapLookup rooms roomID with
  | some room => room
  | none => NewRoom roomID

/-- The Room State Table after the joined-rooms loop, fault-free case:
only the state-event lists of the response are merged. -/
def joinRoomsFold : List (String × Room) → List (String × JoinedRoomData) → List (String × Room)
  | rooms, [] => rooms
  | rooms, (roomID, rd) :: rest =>
    joinRoomsFold
      (mapSet rooms roomID (roomAfterState roomID (roomOrNew rooms roomID) rd.State.Events)) rest

/-- The Room State Table after the invited-rooms loop, fault-free case. -/
def inviteRoomsFold : List (String × Room) → List (String × InvitedRoomData) → List (String × Room)
  | rooms, [] => rooms
  | rooms, (roomID, rd) :: rest =>
    inviteRoomsFold
      (mapSet rooms roomID (roomAfterState roomID (roomOrNew rooms roomID) rd.State.Events)) rest

/-- A self-membership event of the syncing account: `e.Type ==
"m.room.member" && e.StateKey == s.UserID` (sync.go:109). -/
def IsSelfMembership (userID : String) (e : Event) : Prop :=
  e.etype = "m.room.member" ∧ e.stateKey = userID

/-- A self-membership event whose membership field is the string "join" —
the condition on which `shouldProcessResponse` discards a room. -/
def SelfJoin (userID : String) (e : Event) : Prop :=
  e.etype = "m.room.member" ∧ e.stateKey = userID ∧ membershipString e = some "join"

instance (userID : String) (e : Event) : Decidable (IsSelfMembership userID e) := by
  unfold IsSelfMembership; infer_instance

instance (userID : String) (e : Event) : Decidable (SelfJoin userID e) := by
  unfold SelfJoin; infer_instance

/-- The first self-membership event of a list; applied to a reversed
timeline it is the most recent self-membership event of that timeline. -/
def firstSelfMembership (userID : String) : List Event → Option Event
  | [] => none
  | e :: rest =>
    if e.etype = "m.room.member" ∧ e.stateKey = userID then some e
    else firstSelfMembership userID rest

/-! Concrete instances, used to evaluate the theorems on executable inputs. -/

/-- The example identity of the spec's scenarios. -/
def exUser : String := "@bot:example.org"

/-- The example room identifier of the spec's scenarios. -/
def exRid : String := "!r:example.org"

/-- A self-membership event of `exUser` with the given membership string. -/
def memberEvent (m : String) : Event :=
  { stateKey := exUser, sender := exUser, etype := "m.room.member", roomID := "",
    content := [("membership", JsonV.str m)] }

/-- A self-membership event of `exUser` whose membership field is not a
string. -/
def badMemberEvent : Event :=
  { stateKey := exUser, sender := exUser, etype := "m.room.member", roomID := "",
    content := [("membership", JsonV.other)] }

/-- The spec's example state event: a room name. -/
def exNameEv : Event :=
  { stateKey := "", sender := exUser, etype := "m.room.name", roomID := "",
    content := [("name", JsonV.str "Test")] }

/-- A second room-name state event with the same (type, state-key). -/
def exNameEv2 : Event :=
  { stateKey := "", sender := exUser, etype := "m.room.name", roomID := "",
    content := [("name", JsonV.str "Test2")] }

/-- The spec's example timeline event: a message. -/
def exMsgEv : Event :=
  { stateKey := "", sender := exUser, etype := "m.room.message", roomID := "",
    content := [("body", JsonV.str "hi")] }

/-- A fresh syncer with no rooms and no listeners. -/
def emptySyncer : DefaultSyncer := { UserID := exUser, Rooms := [], listeners := [] }

/-- A timeline whose most recent self-membership event is "leave" and whose
older one is "join" (list order = chronological order). -/
def cexTimeline : List Event := [memberEvent "join", memberEvent "leave"]

/-- A response-rooms block with one joined room carrying `cexTimeline`. -/
def cexRooms : SyncRooms :=
  { Join := [(exRid, { State := { Events := [] }, Timeline := { Events := cexTimeline } })],
    Invite := [] }

/-- A joined room whose most recent timeline event is a self-"join"
(replay-suppression fires) and that also carries a state event. -/
def wSuppressData : JoinedRoomData :=
  { State := { Events := [exNameEv] },
    Timeline := { Events := [memberEvent "leave", memberEvent "join"] } }

/-- A response containing only `wSuppressData` under `exRid`. -/
def wSuppressResp : RespSync :=
  { NextBatch := "nb", Rooms := { Join := [(exRid, wSuppressData)], Invite := [] } }

/-- `wSuppressResp` after the replay-suppression pass removed its room. -/
def wSuppressedRespAfter : RespSync :=
  { NextBatch := "nb", Rooms := { Join := [], Invite := [] } }

/-- A listener for room-name events (never panics). -/
def nameListener : Listener := { id := 1, behavior := fun _ => none }

/-- A listener for message events (never panics). -/
def msgListener : Listener := { id := 2, behavior := fun _ => none }

/-- A listener that always panics with "boom". -/
def boomListener : Listener := { id := 3, behavior := fun _ => some "boom" }

/-- A syncer subscribed to the name and message event types. -/
def wDispatchSyncer : DefaultSyncer :=
  { UserID := exUser, Rooms := [],
    listeners := [("m.room.name", [nameListener]), ("m.room.message", [msgListener])] }

/-- One joined room with one state event and one timeline event. -/
def wDispatchData : JoinedRoomData :=
  { State := { Events := [exNameEv] }, Timeline := { Events := [exMsgEv] } }

/-- The response of the spec's second example scenario. -/
def wDispatchResp : RespSync :=
  { NextBatch := "nb", Rooms := { Join := [(exRid, wDispatchData)], Invite := [] } }

/-- The room produced by processing `wDispatchData`. -/
def wDispatchRoom : Room :=
  { ID := exRid, State := [(("m.room.name", ""), stamp exNameEv exRid)] }

/-- The syncer after processing `wDispatchResp`. -/
def wDispatchSyncerAfter : DefaultSyncer :=
  { wDispatchSyncer with Rooms := [(exRid, wDispatchRoom)] }

/-- The invocation trace of processing `wDispatchResp`. -/
def wDispatchTrace : List (Nat × Event) :=
  [(1, stamp exNameEv exRid), (2, stamp exMsgEv exRid)]

/-- One joined room with two state events sharing (type, state-key). -/
def wMergeData : JoinedRoomData :=
  { State := { Events := [exNameEv, exNameEv2] }, Timeline := { Events := [] } }

/-- A response containing only `wMergeData` under `exRid`. -/
def wMergeResp : RespSync :=
  { NextBatch := "nb", Rooms := { Join := [(exRid, wMergeData)], Invite := [] } }

/-- The room produced by merging `wMergeData`: only the later name event
remains. -/
def wMergeRoom : Room :=
  { ID := exRid, State := [(("m.room.name", ""), stamp exNameEv2 exRid)] }

/-- The syncer after processing `wMergeResp`. -/
def wMergeSyncerAfter : DefaultSyncer := { emptySyncer with Rooms := [(exRid, wMergeRoom)] }

/-- A syncer whose only listener panics on every event. -/
def wFaultSyncer : DefaultSyncer :=
  { UserID := exUser, Rooms := [], listeners := [("m.room.name", [boomListener])] }

/-- One joined room with one state event and an empty timeline. -/
def wFaultData : JoinedRoomData :=
  { State := { Events := [exNameEv] }, Timeline := { Events := [] } }

/-- A response with one state event, dispatched to the panicking listener. -/
def wFaultResp : RespSync :=
  { NextBatch := "nb", Rooms := { Join := [(exRid, wFaultData)], Invite := [] } }

/-! Association-list (Go map) lemmas. -/

theorem mapDelete_cons {κ α : Type} [DecidableEq κ] (p : κ × α) (rest : List (κ × α)) (k : κ) :
    mapDelete (p :: rest) k = if p.1 = k then mapDelete rest k else p :: mapDelete rest k := by
  by_cases h : p.1 = k <;> simp [mapDelete, List.filter_cons, h]

theorem mapLookup_mapDelete_self {κ α : Type} [DecidableEq κ] (m : List (κ × α)) (k : κ) :
    mapLookup (mapDelete m k) k = none := by
  induction m with
  | nil => rfl
  | cons p rest ih =>
    obtain ⟨k', v⟩ := p
    rw [mapDelete_cons]
    by_cases h : k' = k
    · simpa [h] using ih
    · simp only [h, if_false]
      simpa [mapLookup, h] using ih

theorem mapLookup_mapDelete_ne {κ α : Type} [DecidableEq κ] (m : List (κ × α)) {k' k : κ}
    (h : k' ≠ k) : mapLookup (mapDelete m k') k = mapLookup m k := by
  induction m with
  | nil => rfl
  | cons p rest ih =>
    obtain ⟨k0, v⟩ := p
    rw [mapDelete_cons]
    by_cases h0 : k0 = k'
    · have : k0 ≠ k := by simpa [h0] using h
      simp [h0, mapLookup, this, ih, h]
    · simp [h0, mapLookup, ih]

theorem mapLookup_mapSet_self {κ α : Type} [DecidableEq κ] (m : List (κ × α)) (k : κ) (v : α) :
    mapLookup (mapSet m k v) k = some v := by
  induction m with
  | nil => simp [mapSet, mapLookup]
  | cons p rest ih =>
    obtain ⟨k0, v0⟩ := p
    by_cases h0 : k0 = k
    · simp [mapSet, h0, mapLookup]
    · simp [mapSet, h0, mapLookup, ih]

theorem mapLookup_mapSet_ne {κ α : Type} [DecidableEq κ] (m : List (κ × α)) {k' k : κ} (v : α)
    (h : k' ≠ k) : mapLookup (mapSet m k' v) k = mapLookup m k := by
  induction m with
  | nil => simp [mapSet, mapLookup, h]
  | cons p rest ih =>
    obtain ⟨k0, v0⟩ := p
    by_cases h0 : k0 = k'
    · have : k0 ≠ k := by simpa [h0] using h
      simp [mapSet, h0, mapLookup, h, this]
    · simp [mapSet, h0, mapLookup, ih]

theorem mapLookup_eq_none_iff {κ α : Type} [DecidableEq κ] (m : List (κ × α)) (k : κ) :
    mapLookup m k = none ↔ ∀ p ∈ m, p.1 ≠ k := by
  induction m with
  | nil => simp [mapLookup]
  | cons p rest ih =>
    obtain ⟨k0, v0⟩ := p
    by_cases h0 : k0 = k
    · simp [mapLookup, h0]
    · simp [mapLookup, h0, ih]

theorem mapLookup_mem {κ α : Type} [DecidableEq κ] {m : List (κ × α)} {k : κ} {v : α}
    (h : mapLookup m k = some v) : (k, v) ∈ m := by
  induction m with
  | nil => simp [mapLookup] at h
  | cons p rest ih =>
    obtain ⟨k0, v0⟩ := p
    by_cases h0 : k0 = k
    · simp only [mapLookup, h0, if_true, Option.some.injEq] at h
      subst h0; subst h
      exact List.mem_cons_self _ _
    · simp only [mapLookup, h0, if_false] at h
      exact List.mem_cons_of_mem _ (ih h)

theorem mapLookup_of_mem_nodup {κ α : Type} [DecidableEq κ] {m : List (κ × α)} {k : κ} {v : α}
    (hnd : (m.map Prod.fst).Nodup) (hmem : (k, v) ∈ m) : mapLookup m k = some v := by
  induction m with
  | nil => simp at hmem
  | cons p rest ih =>
    obtain ⟨k0, v0⟩ := p
    have hnd1 : k0 ∉ rest.map Prod.fst ∧ (rest.map Prod.fst).Nodup := by
      simpa only [List.map_cons, List.nodup_cons] using hnd
    rcases List.mem_cons.mp hmem with heq | htail
    · obtain ⟨rfl, rfl⟩ : k = k0 ∧ v = v0 := by simpa using heq
      simp [mapLookup]
    · have hk0 : k0 ≠ k := by
        intro hk
        subst hk
        exact hnd1.1 (List.mem_map.mpr ⟨(k0, v), htail, rfl⟩)
      simp only [mapLookup, hk0, if_false]
      exact ih hnd1.2 htail

theorem nodup_key_entry_eq {κ α : Type} [DecidableEq κ] {m : List (κ × α)} {p q : κ × α}
    (hnd : (m.map Prod.fst).Nodup) (hp : p ∈ m) (hq : q ∈ m) (hk : p.1 = q.1) : p = q := by
  induction m with
  | nil => simp at hp
  | cons r rest ih =>
    have hnd1 : r.1 ∉ rest.map Prod.fst ∧ (rest.map Prod.fst).Nodup := by
      simpa only [List.map_cons, List.nodup_cons] using hnd
    rcases List.mem_cons.mp hp with hp1 | hp2 <;> rcases List.mem_cons.mp hq with hq1 | hq2
    · rw [hp1, hq1]
    · exfalso
      apply hnd1.1
      refine List.mem_map.mpr ⟨q, hq2, ?_⟩
      rw [← hk, hp1]
    · exfalso
      apply hnd1.1
      refine List.mem_map.mpr ⟨p, hp2, ?_⟩
      rw [hk, hq1]
    · exact ih hnd1.2 hp2 hq2

theorem mapDelete_sublist {κ α : Type} [DecidableEq κ] (m : List (κ × α)) (k : κ) :
    (mapDelete m k).Sublist m :=
  List.filter_sublist m

/-! Lemmas about the replay-suppression scan. -/

theorem scanBack_of_no_selfjoin (u rid : String) (rooms : SyncRooms) (evs : List Event)
    (h : ∀ e ∈ evs, ¬ SelfJoin u e) : scanBack u rid rooms evs = rooms := by
  induction evs with
  | nil => rfl
  | cons e older ih =>
    have holder : ∀ e' ∈ older, ¬ SelfJoin u e' :=
      fun e' he' => h e' (List.mem_cons_of_mem _ he')
    have hne := h e (List.mem_cons_self _ _)
    by_cases hsm : e.etype = "m.room.member" ∧ e.stateKey = u
    · rcases hm : membershipString e with _ | mship
      · simp [scanBack, hsm.1, hsm.2, hm, ih holder]
      · have hmj : mship ≠ "join" := by
          intro hj
          exact hne ⟨hsm.1, hsm.2, by rw [hm, hj]⟩
        simp [scanBack, hsm.1, hsm.2, hm, hmj, ih holder]
    · simp [scanBack, hsm, ih holder]

theorem scanBack_shape (u rid : String) (rooms : SyncRooms) (evs : List Event) :
    scanBack u rid rooms evs = rooms ∨
    scanBack u rid rooms evs =
      { Join := mapDelete rooms.Join rid, Invite := mapDelete rooms.Invite rid } := by
  induction evs with
  | nil => exact Or.inl rfl
  | cons e older ih =>
    by_cases hsm : e.etype = "m.room.member" ∧ e.stateKey = u
    · rcases hm : membershipString e with _ | mship
      · simpa [scanBack, hsm.1, hsm.2, hm] using ih
      · by_cases hj : mship = "join"
        · by_cases hp : (mapLookup rooms.Join rid).isSome
          · right
            simp [scanBack, hsm.1, hsm.2, hm, hj, hp]
          · simpa [scanBack, hsm.1, hsm.2, hm, hj, hp] using ih
        · simpa [scanBack, hsm.1, hsm.2, hm, hj] using ih
    · simpa [scanBack, hsm] using ih

theorem scanBack_deletes (u rid : String) (rooms : SyncRooms) (evs : List Event)
    (hp : (mapLookup rooms.Join rid).isSome) (hex : ∃ e ∈ evs, SelfJoin u e) :
    scanBack u rid rooms evs =
      { Join := mapDelete rooms.Join rid, Invite := mapDelete rooms.Invite rid } := by
  induction evs with
  | nil => simp at hex
  | cons e older ih =>
    by_cases hsj : SelfJoin u e
    · obtain ⟨h1, h2, h3⟩ := hsj
      simp [scanBack, h1, h2, h3, hp]
    · have hex' : ∃ e' ∈ older, SelfJoin u e' := by
        rcases hex with ⟨e', he', hsj'⟩
        rcases List.mem_cons.mp he' with heq | hmem
        · exact absurd (heq ▸ hsj') hsj
        · exact ⟨e', hmem, hsj'⟩
      by_cases hsm : e.etype = "m.room.member" ∧ e.stateKey = u
      · rcases hm : membershipString e with _ | mship
        · simpa [scanBack, hsm.1, hsm.2, hm] using ih hex'
        · have hj : mship ≠ "join" := by
            intro hcontra
            exact hsj ⟨hsm.1, hsm.2, by rw [hm, hcontra]⟩
          simpa [scanBack, hsm.1, hsm.2, hm, hj] using ih hex'
      · simpa [scanBack, hsm] using ih hex'

theorem scanBack_lookup_ne (u rid : String) (rooms : SyncRooms) (evs : List Event) {k : String}
    (hk : k ≠ rid) :
    mapLookup (scanBack u rid rooms evs).Join k = mapLookup rooms.Join k ∧
    mapLookup (scanBack u rid rooms evs).Invite k = mapLookup rooms.Invite k := by
  rcases scanBack_shape u rid rooms evs with h | h <;> rw [h]
  · exact ⟨rfl, rfl⟩
  · exact ⟨mapLookup_mapDelete_ne _ (Ne.symm hk), mapLookup_mapDelete_ne _ (Ne.symm hk)⟩

theorem scanBack_preserves_none (u rid : String) (rooms : SyncRooms) (evs : List Event)
    (k : String) (hJ : mapLookup rooms.Join k = none) (hI : mapLookup rooms.Invite k = none) :
    mapLookup (scanBack u rid rooms evs).Join k = none ∧
    mapLookup (scanBack u rid rooms evs).Invite k = none := by
  rcases scanBack_shape u rid rooms evs with h | h <;> rw [h]
  · exact ⟨hJ, hI⟩
  · by_cases hk : k = rid
    · subst hk
      exact ⟨mapLookup_mapDelete_self _ _, mapLookup_mapDelete_self _ _⟩
    · exact ⟨by rw [mapLookup_mapDelete_ne _ (Ne.symm hk)]; exact hJ,
        by rw [mapLookup_mapDelete_ne _ (Ne.symm hk)]; exact hI⟩

theorem scanBack_sublist (u rid : String) (rooms : SyncRooms) (evs : List Event) :
    (scanBack u rid rooms evs).Join.Sublist rooms.Join ∧
    (scanBack u rid rooms evs).Invite.Sublist rooms.Invite := by
  rcases scanBack_shape u rid rooms evs with h | h <;> rw [h]
  · exact ⟨List.Sublist.refl _, List.Sublist.refl _⟩
  · exact ⟨mapDelete_sublist _ _, mapDelete_sublist _ _⟩

theorem suppressLoop_preserves_none (u : String) (rid : String) :
    ∀ (L : List (String × JoinedRoomData)) (rooms : SyncRooms),
      mapLookup rooms.Join rid = none → mapLookup rooms.Invite rid = none →
      mapLookup (suppressLoop u L rooms).Join rid = none ∧
      mapLookup (suppressLoop u L rooms).Invite rid = none := by
  intro L
  induction L with
  | nil => exact fun rooms hJ hI => ⟨hJ, hI⟩
  | cons p rest ih =>
    intro rooms hJ hI
    obtain ⟨rid', rd⟩ := p
    simp only [suppressLoop]
    obtain ⟨hJ', hI'⟩ :=
      scanBack_preserves_none u rid' rooms rd.Timeline.Events.reverse rid hJ hI
    exact ih _ hJ' hI'

theorem suppressLoop_sublist (u : String) :
    ∀ (L : List (String × JoinedRoomData)) (rooms : SyncRooms),
      (suppressLoop u L rooms).Join.Sublist rooms.Join ∧
      (suppressLoop u L rooms).Invite.Sublist rooms.Invite := by
  intro L
  induction L with
  | nil => exact fun rooms => ⟨List.Sublist.refl _, List.Sublist.refl _⟩
  | cons p rest ih =>
    intro rooms
    obtain ⟨rid', rd⟩ := p
    simp only [suppressLoop]
    obtain ⟨h1, h2⟩ := ih (scanBack u rid' rooms rd.Timeline.Events.reverse)
    obtain ⟨h3, h4⟩ := scanBack_sublist u rid' rooms rd.Timeline.Events.reverse
    exact ⟨h1.trans h3, h2.trans h4⟩

theorem suppressLoop_keeps (u : String) (rid : String) :
    ∀ (L : List (String × JoinedRoomData)) (rooms : SyncRooms),
      (∀ p ∈ L, p.1 = rid → ∀ e ∈ p.2.Timeline.Events, ¬ SelfJoin u e) →
      mapLookup (suppressLoop u L rooms).Join rid = mapLookup rooms.Join rid ∧
      mapLookup (suppressLoop u L rooms).Invite rid = mapLookup rooms.Invite rid := by
  intro L
  induction L with
  | nil => exact fun rooms _ => ⟨rfl, rfl⟩
  | cons p rest ih =>
    intro rooms h
    obtain ⟨rid', rd⟩ := p
    have hrest : ∀ p ∈ rest, p.1 = rid → ∀ e ∈ p.2.Timeline.Events, ¬ SelfJoin u e :=
      fun q hq => h q (List.mem_cons_of_mem _ hq)
    simp only [suppressLoop]
    by_cases hr : rid' = rid
    · have hno : ∀ e ∈ rd.Timeline.Events.reverse, ¬ SelfJoin u e := by
        intro e he
        exact h (rid', rd) (List.mem_cons_self _ _) hr e (List.mem_reverse.mp he)
      rw [scanBack_of_no_selfjoin u rid' rooms _ hno]
      exact ih rooms hrest
    · obtain ⟨h1, h2⟩ := ih (scanBack u rid' rooms rd.Timeline.Events.reverse) hrest
      obtain ⟨h3, h4⟩ :=
        scanBack_lookup_ne u rid' rooms rd.Timeline.Events.reverse (Ne.symm hr)
      exact ⟨h1.trans h3, h2.trans h4⟩

theorem suppressLoop_deletes (u rid : String) (rd : JoinedRoomData)
    (hex : ∃ e ∈ rd.Timeline.Events, SelfJoin u e) :
    ∀ (L : List (String × JoinedRoomData)) (rooms : SyncRooms),
      (rid, rd) ∈ L → (L.map Prod.fst).Nodup → (mapLookup rooms.Join rid).isSome →
      mapLookup (suppressLoop u L rooms).Join rid = none ∧
      mapLookup (suppressLoop u L rooms).Invite rid = none := by
  intro L
  induction L with
  | nil => intro rooms h; simp at h
  | cons p rest ih =>
    intro rooms hmem hnd hp
    obtain ⟨rid', rd'⟩ := p
    have hnd1 : rid' ∉ rest.map Prod.fst ∧ (rest.map Prod.fst).Nodup := by
      simpa only [List.map_cons, List.nodup_cons] using hnd
    simp only [suppressLoop]
    rcases List.mem_cons.mp hmem with heq | htail
    · obtain ⟨h1, h2⟩ : rid = rid' ∧ rd = rd' := by simpa using heq
      subst h1
      subst h2
      have hex' : ∃ e ∈ rd.Timeline.Events.reverse, SelfJoin u e := by
        rcases hex with ⟨e, he, hs⟩
        exact ⟨e, List.mem_reverse.mpr he, hs⟩
      rw [scanBack_deletes u rid rooms _ hp hex']
      exact suppressLoop_preserves_none u rid rest _
        (mapLookup_mapDelete_self _ _) (mapLookup_mapDelete_self _ _)
    · have hr : rid' ≠ rid := by
        intro h
        subst h
        exact hnd1.1 (List.mem_map.mpr ⟨(rid', rd), htail, rfl⟩)
      have hs := scanBack_lookup_ne u rid' rooms rd'.Timeline.Events.reverse (Ne.symm hr)
      apply ih _ htail hnd1.2
      rw [hs.1]
      exact hp

theorem suppressReplays_deletes (u : String) (rooms : SyncRooms) (rid : String)
    (rd : JoinedRoomData) (hmem : (rid, rd) ∈ rooms.Join)
    (hnd : (rooms.Join.map Prod.fst).Nodup)
    (hex : ∃ e ∈ rd.Timeline.Events, SelfJoin u e) :
    mapLookup (suppressReplays u rooms).Join rid = none ∧
    mapLookup (suppressReplays u rooms).Invite rid = none := by
  have hp : (mapLookup rooms.Join rid).isSome := by
    rw [mapLookup_of_mem_nodup hnd hmem]
    rfl
  exact suppressLoop_deletes u rid rd hex rooms.Join rooms hmem hnd hp

theorem suppressReplays_keeps (u : String) (rooms : SyncRooms) (rid : String)
    (h : ∀ p ∈ rooms.Join, p.1 = rid → ∀ e ∈ p.2.Timeline.Events, ¬ SelfJoin u e) :
    mapLookup (suppressReplays u rooms).Join rid = mapLookup rooms.Join rid ∧
    mapLookup (suppressReplays u rooms).Invite rid = mapLookup rooms.Invite rid :=
  suppressLoop_keeps u rid rooms.Join rooms h

/-! Characterization of the fault-free run of the processing loops. -/

theorem runListeners_ok {e : Event} :
    ∀ {ls : List Listener} {t : List (Nat × Event)},
      runListeners e ls = Except.ok t → t = ls.map (fun l => (l.id, e)) := by
  intro ls
  induction ls with
  | nil =>
    intro t h
    simp only [runListeners, Except.ok.injEq] at h
    simp [← h]
  | cons l rest ih =>
    intro t h
    simp only [runListeners] at h
    rcases hb : l.behavior e with _ | msg <;> rw [hb] at h
    · rcases hr : runListeners e rest with f | t' <;> rw [hr] at h
      · cases h
      · simp only [Except.ok.injEq] at h
        rw [← h, ih hr]
        simp
    · cases h

theorem notifyListeners_ok {s : DefaultSyncer} {e : Event} {t : List (Nat × Event)}
    (h : s.notifyListeners e = Except.ok t) : t = dispatchTrace s e := by
  unfold DefaultSyncer.notifyListeners at h
  unfold dispatchTrace
  rcases hl : mapLookup s.listeners e.etype with _ | ls <;> rw [hl] at h
  · simp only [Except.ok.injEq] at h
    rw [← h]
  · exact runListeners_ok h

theorem dispatchTrace_congr {s1 s2 : DefaultSyncer} (h : s1.listeners = s2.listeners)
    (e : Event) : dispatchTrace s1 e = dispatchTrace s2 e := by
  unfold dispatchTrace
  rw [h]

theorem traceOfEvents_congr {s1 s2 : DefaultSyncer} (h : s1.listeners = s2.listeners)
    (roomID : String) (evs : List Event) :
    traceOfEvents s1 roomID evs = traceOfEvents s2 roomID evs := by
  induction evs with
  | nil => rfl
  | cons e rest ih =>
    simp only [traceOfEvents, dispatchTrace_congr h, ih]

theorem joinTrace_congr {s1 s2 : DefaultSyncer} (h : s1.listeners = s2.listeners) :
    ∀ L : List (String × JoinedRoomData), joinTrace s1 L = joinTrace s2 L := by
  intro L
  induction L with
  | nil => rfl
  | cons p rest ih =>
    obtain ⟨rid, rd⟩ := p
    simp only [joinTrace, traceOfEvents_congr h, ih]

theorem inviteTrace_congr {s1 s2 : DefaultSyncer} (h : s1.listeners = s2.listeners) :
    ∀ L : List (String × InvitedRoomData), inviteTrace s1 L = inviteTrace s2 L := by
  intro L
  induction L with
  | nil => rfl
  | cons p rest ih =>
    obtain ⟨rid, rd⟩ := p
    simp only [inviteTrace, traceOfEvents_congr h, ih]

theorem processStateEvents_ok {s : DefaultSyncer} {roomID : String} :
    ∀ {evs : List Event} {room room' : Room} {tr : List (Nat × Event)},
      processStateEvents s roomID room evs = Except.ok (room', tr) →
      room' = roomAfterState roomID room evs ∧ tr = traceOfEvents s roomID evs := by
  intro evs
  induction evs with
  | nil =>
    intro room room' tr h
    simp only [processStateEvents, Except.ok.injEq, Prod.mk.injEq] at h
    exact ⟨h.1.symm, h.2.symm⟩
  | cons ev rest ih =>
    intro room room' tr h
    simp only [processStateEvents] at h
    rcases hn : s.notifyListeners (stamp ev roomID) with f | t0 <;> rw [hn] at h
    · cases h
    · rcases hrec : processStateEvents s roomID (room.UpdateState (stamp ev roomID)) rest
        with f | pr <;> rw [hrec] at h
      · cases h
      · obtain ⟨rfin, tr'⟩ := pr
        simp only [Except.ok.injEq, Prod.mk.injEq] at h
        obtain ⟨hr, ht⟩ := h
        obtain ⟨ih1, ih2⟩ := ih hrec
        constructor
        · rw [← hr, ih1]
          rfl
        · rw [← ht, ih2, notifyListeners_ok hn]
          rfl

theorem processTimelineEvents_ok {s : DefaultSyncer} {roomID : String} :
    ∀ {evs : List Event} {tr : List (Nat × Event)},
      processTimelineEvents s roomID evs = Except.ok tr → tr = traceOfEvents s roomID evs := by
  intro evs
  induction evs with
  | nil =>
    intro tr h
    simp only [processTimelineEvents, Except.ok.injEq] at h
    simp [← h, traceOfEvents]
  | cons ev rest ih =>
    intro tr h
    simp only [processTimelineEvents] at h
    rcases hn : s.notifyListeners (stamp ev roomID) with f | t0 <;> rw [hn] at h
    · cases h
    · rcases hrec : processTimelineEvents s roomID rest with f | tr' <;> rw [hrec] at h
      · cases h
      · simp only [Except.ok.injEq] at h
        rw [← h, ih hrec, notifyListeners_ok hn]
        rfl

theorem processJoin_ok :
    ∀ {L : List (String × JoinedRoomData)} {s s' : DefaultSyncer} {tr : List (Nat × Event)},
      processJoin s L = Except.ok (s', tr) →
      s'.UserID = s.UserID ∧ s'.listeners = s.listeners ∧
      s'.Rooms = joinRoomsFold s.Rooms L ∧ tr = joinTrace s L := by
  intro L
  induction L with
  | nil =>
    intro s s' tr h
    simp only [processJoin, Except.ok.injEq, Prod.mk.injEq] at h
    obtain ⟨hs, ht⟩ := h
    rw [← hs, ← ht]
    exact ⟨rfl, rfl, rfl, rfl⟩
  | cons p rest ih =>
    intro s s' tr h
    obtain ⟨roomID, rd⟩ := p
    rcases hse : processStateEvents s roomID (s.getOrCreateRoom roomID) rd.State.Events
      with f | pr
    · simp [processJoin, hse] at h
    · obtain ⟨room', t1⟩ := pr
      rcases hte : processTimelineEvents { s with Rooms := mapSet s.Rooms roomID room' }
          roomID rd.Timeline.Events with f | t2
      · simp [processJoin, hse, hte] at h
      · rcases hrec : processJoin { s with Rooms := mapSet s.Rooms roomID room' } rest
          with f | pr2
        · simp [processJoin, hse, hte, hrec] at h
        · obtain ⟨sfin, tr'⟩ := pr2
          simp only [processJoin, hse, hte, hrec, Except.ok.injEq, Prod.mk.injEq] at h
          obtain ⟨hs, ht⟩ := h
          obtain ⟨ihU, ihL, ihR, ihT⟩ := ih hrec
          obtain ⟨hroom, ht1⟩ := processStateEvents_ok hse
          have hlis : ({ s with Rooms := mapSet s.Rooms roomID room' } :
              DefaultSyncer).listeners = s.listeners := rfl
          refine ⟨by rw [← hs]; exact ihU, by rw [← hs]; exact ihL, ?_, ?_⟩
          · rw [← hs, ihR]
            simp only [joinRoomsFold]
            rw [hroom]
            rfl
          · rw [← ht, ihT, ht1, processTimelineEvents_ok hte,
              traceOfEvents_congr hlis, joinTrace_congr hlis]
            rfl

theorem processInvite_ok :
    ∀ {L : List (String × InvitedRoomData)} {s s' : DefaultSyncer} {tr : List (Nat × Event)},
      processInvite s L = Except.ok (s', tr) →
      s'.UserID = s.UserID ∧ s'.listeners = s.listeners ∧
      s'.Rooms = inviteRoomsFold s.Rooms L ∧ tr = inviteTrace s L := by
  intro L
  induction L with
  | nil =>
    intro s s' tr h
    simp only [processInvite, Except.ok.injEq, Prod.mk.injEq] at h
    obtain ⟨hs, ht⟩ := h
    rw [← hs, ← ht]
    exact ⟨rfl, rfl, rfl, rfl⟩
  | cons p rest ih =>
    intro s s' tr h
    obtain ⟨roomID, rd⟩ := p
    rcases hse : processStateEvents s roomID (s.getOrCreateRoom roomID) rd.State.Events
      with f | pr
    · simp [processInvite, hse] at h
    · obtain ⟨room', t1⟩ := pr
      rcases hrec : processInvite { s with Rooms := mapSet s.Rooms roomID room' } rest
        with f | pr2
      · simp [processInvite, hse, hrec] at h
      · obtain ⟨sfin, tr'⟩ := pr2
        simp only [processInvite, hse, hrec, Except.ok.injEq, Prod.mk.injEq] at h
        obtain ⟨hs, ht⟩ := h
        obtain ⟨ihU, ihL, ihR, ihT⟩ := ih hrec
        obtain ⟨hroom, ht1⟩ := processStateEvents_ok hse
        have hlis : ({ s with Rooms := mapSet s.Rooms roomID room' } :
            DefaultSyncer).listeners = s.listeners := rfl
        refine ⟨by rw [← hs]; exact ihU, by rw [← hs]; exact ihL, ?_, ?_⟩
        · rw [← hs, ihR]
          simp only [inviteRoomsFold]
          rw [hroom]
          rfl
        · rw [← ht, ihT, ht1, inviteTrace_congr hlis]
          rfl

theorem processBody_ok {s s' : DefaultSyncer} {r : RespSync} {tr : List (Nat × Event)}
    (h : processBody s r = Except.ok (s', tr)) :
    s'.UserID = s.UserID ∧ s'.listeners = s.listeners ∧
    s'.Rooms = inviteRoomsFold (joinRoomsFold s.Rooms r.Rooms.Join) r.Rooms.Invite ∧
    tr = joinTrace s r.Rooms.Join ++ inviteTrace s r.Rooms.Invite := by
  rcases hj : processJoin s r.Rooms.Join with f | pr
  · simp [processBody, hj] at h
  · obtain ⟨s1, t1⟩ := pr
    rcases hi : processInvite s1 r.Rooms.Invite with f | pr2
    · simp [processBody, hj, hi] at h
    · obtain ⟨s2, t2⟩ := pr2
      simp only [processBody, hj, hi, Except.ok.injEq, Prod.mk.injEq] at h
      obtain ⟨hs, ht⟩ := h
      obtain ⟨hU1, hL1, hR1, hT1⟩ := processJoin_ok hj
      obtain ⟨hU2, hL2, hR2, hT2⟩ := processInvite_ok hi
      refine ⟨by rw [← hs, hU2, hU1], by rw [← hs, hL2, hL1], ?_, ?_⟩
      · rw [← hs, hR2, hR1]
      · rw [← ht, hT1, hT2, inviteTrace_congr hL1]

/-! Trace membership lemmas: every dispatched event carries the identifier
of the room it was processed under. -/

theorem mem_dispatchTrace {s : DefaultSyncer} {e : Event} {p : Nat × Event}
    (h : p ∈ dispatchTrace s e) : p.2 = e := by
  unfold dispatchTrace at h
  rcases hl : mapLookup s.listeners e.etype with _ | ls <;> rw [hl] at h
  · simp at h
  · obtain ⟨l, _, hp⟩ := List.mem_map.mp h
    rw [← hp]

theorem mem_traceOfEvents {s : DefaultSyncer} {roomID : String} {p : Nat × Event} :
    ∀ {evs : List Event}, p ∈ traceOfEvents s roomID evs → p.2.roomID = roomID := by
  intro evs
  induction evs with
  | nil => intro h; simp [traceOfEvents] at h
  | cons e rest ih =>
    intro h
    rcases List.mem_append.mp h with h1 | h2
    · rw [mem_dispatchTrace h1]
      rfl
    · exact ih h2

theorem mem_joinTrace_roomID {s : DefaultSyncer} {p : Nat × Event} :
    ∀ {L : List (String × JoinedRoomData)}, p ∈ joinTrace s L → ∃ q ∈ L, p.2.roomID = q.1 := by
  intro L
  induction L with
  | nil => intro h; simp [joinTrace] at h
  | cons q rest ih =>
    intro h
    obtain ⟨rid, rd⟩ := q
    simp only [joinTrace] at h
    rcases List.mem_append.mp h with h1 | h2
    · rcases List.mem_append.mp h1 with h3 | h4
      · exact ⟨(rid, rd), List.mem_cons_self _ _, mem_traceOfEvents h3⟩
      · exact ⟨(rid, rd), List.mem_cons_self _ _, mem_traceOfEvents h4⟩
    · obtain ⟨q', hq', hp⟩ := ih h2
      exact ⟨q', List.mem_cons_of_mem _ hq', hp⟩

theorem mem_inviteTrace_roomID {s : DefaultSyncer} {p : Nat × Event} :
    ∀ {L : List (String × InvitedRoomData)}, p ∈ inviteTrace s L → ∃ q ∈ L, p.2.roomID = q.1 := by
  intro L
  induction L with
  | nil => intro h; simp [inviteTrace] at h
  | cons q rest ih =>
    intro h
    obtain ⟨rid, rd⟩ := q
    simp only [inviteTrace] at h
    rcases List.mem_append.mp h with h1 | h2
    · exact ⟨(rid, rd), List.mem_cons_self _ _, mem_traceOfEvents h1⟩
    · obtain ⟨q', hq', hp⟩ := ih h2
      exact ⟨q', List.mem_cons_of_mem _ hq', hp⟩

/-! Lookup lemmas for the fault-free room-table folds. -/

theorem joinRoomsFold_lookup_not_mem {rid : String} :
    ∀ {L : List (String × JoinedRoomData)} {rooms : List (String × Room)},
      (∀ q ∈ L, q.1 ≠ rid) → mapLookup (joinRoomsFold rooms L) rid = mapLookup rooms rid := by
  intro L
  induction L with
  | nil => intro rooms _; rfl
  | cons q rest ih =>
    intro rooms h
    obtain ⟨rid', rd⟩ := q
    have hr : rid' ≠ rid := h (rid', rd) (List.mem_cons_self _ _)
    simp only [joinRoomsFold]
    rw [ih (fun q hq => h q (List.mem_cons_of_mem _ hq))]
    exact mapLookup_mapSet_ne _ _ hr

theorem inviteRoomsFold_lookup_not_mem {rid : String} :
    ∀ {L : List (String × InvitedRoomData)} {rooms : List (String × Room)},
      (∀ q ∈ L, q.1 ≠ rid) → mapLookup (inviteRoomsFold rooms L) rid = mapLookup rooms rid := by
  intro L
  induction L with
  | nil => intro rooms _; rfl
  | cons q rest ih =>
    intro rooms h
    obtain ⟨rid', rd⟩ := q
    have hr : rid' ≠ rid := h (rid', rd) (List.mem_cons_self _ _)
    simp only [inviteRoomsFold]
    rw [ih (fun q hq => h q (List.mem_cons_of_mem _ hq))]
    exact mapLookup_mapSet_ne _ _ hr

theorem joinRoomsFold_lookup_mem {rid : String} {rd : JoinedRoomData} :
    ∀ {L : List (String × JoinedRoomData)} {rooms : List (String × Room)},
      (L.map Prod.fst).Nodup → (rid, rd) ∈ L →
      mapLookup (joinRoomsFold rooms L) rid =
        some (roomAfterState rid (roomOrNew rooms rid) rd.State.Events) := by
  intro L
  induction L with
  | nil => intro rooms _ h; simp at h
  | cons q rest ih =>
    intro rooms hnd hmem
    obtain ⟨rid', rd'⟩ := q
    have hnd1 : rid' ∉ rest.map Prod.fst ∧ (rest.map Prod.fst).Nodup := by
      simpa only [List.map_cons, List.nodup_cons] using hnd
    simp only [joinRoomsFold]
    rcases List.mem_cons.mp hmem with heq | htail
    · obtain ⟨h1, h2⟩ : rid = rid' ∧ rd = rd' := by simpa using heq
      subst h1
      subst h2
      have hrest : ∀ q ∈ rest, q.1 ≠ rid := by
        intro q hq hcontra
        exact hnd1.1 (List.mem_map.mpr ⟨q, hq, hcontra⟩)
      rw [joinRoomsFold_lookup_not_mem hrest, mapLookup_mapSet_self]
    · have hr : rid' ≠ rid := by
        intro h
        subst h
        exact hnd1.1 (List.mem_map.mpr ⟨(rid', rd), htail, rfl⟩)
      rw [ih hnd1.2 htail]
      unfold roomOrNew
      rw [mapLookup_mapSet_ne _ _ hr]

/-! Per-key lemmas about the state merge (last-write-wins). -/

theorem roomAfterState_cons (rid : String) (room : Room) (e : Event) (rest : List Event) :
    roomAfterState rid room (e :: rest) = roomAfterState rid (room.UpdateState (stamp e rid)) rest :=
  rfl

theorem roomAfterState_append (rid : String) (room : Room) (xs ys : List Event) :
    roomAfterState rid room (xs ++ ys) = roomAfterState rid (roomAfterState rid room xs) ys := by
  simp [roomAfterState, List.foldl_append]

theorem roomAfterState_lookup_nokey (rid t k : String) :
    ∀ (ys : List Event) (room : Room), (∀ e ∈ ys, ¬(e.etype = t ∧ e.stateKey = k)) →
      mapLookup (roomAfterState rid room ys).State (t, k) = mapLookup room.State (t, k) := by
  intro ys
  induction ys with
  | nil => intro room _; rfl
  | cons e rest ih =>
    intro room h
    have hne : ((stamp e rid).etype, (stamp e rid).stateKey) ≠ (t, k) := by
      intro hp
      apply h e (List.mem_cons_self _ _)
      exact ⟨congrArg Prod.fst hp, congrArg Prod.snd hp⟩
    rw [roomAfterState_cons, ih _ (fun e' he' => h e' (List.mem_cons_of_mem _ he'))]
    exact mapLookup_mapSet_ne _ _ hne

theorem roomAfterState_lookup_last (rid t k : String) (room : Room) (e2 : Event)
    (post : List Event) (hkey : e2.etype = t ∧ e2.stateKey = k)
    (hpost : ∀ e ∈ post, ¬(e.etype = t ∧ e.stateKey = k)) :
    mapLookup (roomAfterState rid room (e2 :: post)).State (t, k) = some (stamp e2 rid) := by
  rw [roomAfterState_cons, roomAfterState_lookup_nokey rid t k post _ hpost]
  have h1 : (stamp e2 rid).etype = t := hkey.1
  have h2 : (stamp e2 rid).stateKey = k := hkey.2
  unfold Room.UpdateState
  rw [h1, h2]
  exact mapLookup_mapSet_self _ _ _

theorem suppressReplays_join_nodup (u : String) (rooms : SyncRooms)
    (hnd : (rooms.Join.map Prod.fst).Nodup) :
    ((suppressReplays u rooms).Join.map Prod.fst).Nodup := by
  have hs := (suppressLoop_sublist u rooms.Join rooms).1
  exact List.Nodup.sublist (List.Sublist.map Prod.fst hs) hnd

theorem firstSelfMembership_spec {u : String} :
    ∀ {evs : List Event} {e : Event}, firstSelfMembership u evs = some e →
      e ∈ evs ∧ e.etype = "m.room.member" ∧ e.stateKey = u := by
  intro evs
  induction evs with
  | nil => intro e h; simp [firstSelfMembership] at h
  | cons e0 rest ih =>
    intro e h
    by_cases hc : e0.etype = "m.room.member" ∧ e0.stateKey = u
    · simp only [firstSelfMembership, hc.1, hc.2, and_self, if_true, Option.some.injEq] at h
      subst h
      exact ⟨List.mem_cons_self _ _, hc⟩
    · simp only [firstSelfMembership, hc, if_false] at h
      obtain ⟨hmem, hrest⟩ := ih h
      exact ⟨List.mem_cons_of_mem _ hmem, hrest⟩

/-! Unfolding lemmas for `ProcessResponse`. -/

theorem ProcessResponse_empty_since (s : DefaultSyncer) (resp : Option RespSync) :
    ProcessResponse s resp "" = Outcome.ok s resp [] :=
  rfl

theorem ProcessResponse_nil (s : DefaultSyncer) (since : String) (hs : since ≠ "") :
    ProcessResponse s none since = Outcome.panicked nilDerefMsg := by
  unfold ProcessResponse shouldProcessResponse
  rw [if_neg hs]

theorem ProcessResponse_some (s : DefaultSyncer) (r : RespSync) (since : String)
    (hs : since ≠ "") :
    ProcessResponse s (some r) since =
      match processBody s { r with Rooms := suppressReplays s.UserID r.Rooms } with
      | Except.error f =>
        Outcome.err { userID := s.UserID, since := since, panicMsg := f }
          (some { r with Rooms := suppressReplays s.UserID r.Rooms })
      | Except.ok (s', tr) =>
        Outcome.ok s' (some { r with Rooms := suppressReplays s.UserID r.Rooms }) tr := by
  unfold ProcessResponse shouldProcessResponse
  rw [if_neg hs]

/-! The claims. -/

/-- Claim C1: for a joined room whose timeline's most recent self-membership
event has membership "join", `ProcessResponse` removes the room from both the
joined-rooms and invited-rooms collections of the response before any state
merge or dispatch: the response carried by the outcome no longer contains the
room, and on a normal return the Room State Table entry of that room is
untouched and no dispatched event carries that room's identifier. -/
theorem rejoined_room_fully_suppressed (s : DefaultSyncer) (r : RespSync) (since rid : String)
    (rd : JoinedRoomData)
    (hs : since ≠ "")
    (hnd : (r.Rooms.Join.map Prod.fst).Nodup)
    (hmem : (rid, rd) ∈ r.Rooms.Join)
    (hrecent : ∃ e, firstSelfMembership s.UserID rd.Timeline.Events.reverse = some e ∧
      membershipString e = some "join") :
    ((∀ r2, Outcome.respOf (ProcessResponse s (some r) since) = some r2 →
      mapLookup r2.Rooms.Join rid = none ∧ mapLookup r2.Rooms.Invite rid = none) ∧
    (∀ s' rr tr, ProcessResponse s (some r) since = Outcome.ok s' rr tr →
      mapLookup s'.Rooms rid = mapLookup s.Rooms rid ∧ ∀ p ∈ tr, p.2.roomID ≠ rid)) := by
  have hex : ∃ e ∈ rd.Timeline.Events, SelfJoin s.UserID e := by
    obtain ⟨e, hf, hm⟩ := hrecent
    obtain ⟨hmemrev, h1, h2⟩ := firstSelfMembership_spec hf
    exact ⟨e, List.mem_reverse.mp hmemrev, h1, h2, hm⟩
  have hdel := suppressReplays_deletes s.UserID r.Rooms rid rd hmem hnd hex
  have hkJ : ∀ q ∈ (suppressReplays s.UserID r.Rooms).Join, q.1 ≠ rid :=
    (mapLookup_eq_none_iff _ _).mp hdel.1
  have hkI : ∀ q ∈ (suppressReplays s.UserID r.Rooms).Invite, q.1 ≠ rid :=
    (mapLookup_eq_none_iff _ _).mp hdel.2
  rw [ProcessResponse_some s r since hs]
  rcases hb : processBody s { r with Rooms := suppressReplays s.UserID r.Rooms } with f | pr
  · constructor
    · intro r2 hr2
      simp only [hb, Outcome.respOf, Option.some.injEq] at hr2
      rw [← hr2]
      exact ⟨hdel.1, hdel.2⟩
    · intro s' rr tr hok
      simp only [hb] at hok
      exact Outcome.noConfusion hok
  · obtain ⟨s2, t2⟩ := pr
    have hpb := processBody_ok hb
    obtain ⟨hU, hL, hR, hT⟩ := hpb
    constructor
    · intro r2 hr2
      simp only [hb, Outcome.respOf, Option.some.injEq] at hr2
      rw [← hr2]
      exact ⟨hdel.1, hdel.2⟩
    · intro s' rr tr hok
      simp only [hb, Outcome.ok.injEq] at hok
      obtain ⟨hs2, hrr, htr⟩ := hok
      constructor
      · rw [← hs2, hR, inviteRoomsFold_lookup_not_mem hkI, joinRoomsFold_lookup_not_mem hkJ]
      · intro p hp
        rw [← htr, hT] at hp
        rcases List.mem_append.mp hp with h1 | h2
        · obtain ⟨q, hq, hpq⟩ := mem_joinTrace_roomID h1
          rw [hpq]
          exact hkJ q hq
        · obtain ⟨q, hq, hpq⟩ := mem_inviteTrace_roomID h2
          rw [hpq]
          exact hkI q hq

/-- Witness for C1: the concrete scenario `wSuppressResp` (most recent
timeline event is a self-"join"): the response after the call has lost the
room, the Room State Table is untouched and nothing was dispatched. -/
theorem rejoined_room_fully_suppressed_witness :
    (mapLookup wSuppressedRespAfter.Rooms.Join exRid = none ∧
      mapLookup wSuppressedRespAfter.Rooms.Invite exRid = none) ∧
    mapLookup emptySyncer.Rooms exRid = mapLookup emptySyncer.Rooms exRid := by
  obtain ⟨ha, hb⟩ := rejoined_room_fully_suppressed emptySyncer wSuppressResp "s1" exRid
    wSuppressData (by decide) (by decide) (by decide) ⟨memberEvent "join", by decide⟩
  exact ⟨ha wSuppressedRespAfter rfl, (hb emptySyncer (some wSuppressedRespAfter) [] rfl).1⟩

/-- Claim C2, counterexample: in `cexRooms` the room's most recent
self-membership event (the first one found scanning backward) has membership
"leave", not "join", so by the claim the room should be kept — but the code
continues the scan past it, finds the older "join" and removes the room. -/
theorem backward_scan_counterexample :
    firstSelfMembership exUser cexTimeline.reverse = some (memberEvent "leave") ∧
    membershipString (memberEvent "leave") = some "leave" ∧
    mapLookup cexRooms.Join exRid ≠ none ∧
    mapLookup (suppressReplays exUser cexRooms).Join exRid = none := by
  refine ⟨by decide, by decide, by decide, by decide⟩

/-- Claim C2 (amended): the backward scan removes the room (from both maps)
exactly when SOME self-membership event anywhere in the timeline has string
membership "join"; only such a "join" event stops the scan — a
self-membership event with any other membership does not stop it, and older
events are still inspected.  `scanBack` takes the timeline already reversed
(head = most recent). -/
theorem backward_scan_removes_iff_any_selfjoin (u rid : String) (rooms : SyncRooms)
    (evs : List Event) :
    (((mapLookup rooms.Join rid).isSome → (∃ e ∈ evs, SelfJoin u e) →
      scanBack u rid rooms evs =
        { Join := mapDelete rooms.Join rid, Invite := mapDelete rooms.Invite rid }) ∧
    ((∀ e ∈ evs, ¬ SelfJoin u e) → scanBack u rid rooms evs = rooms)) :=
  ⟨fun hp hex => scanBack_deletes u rid rooms evs hp hex,
   fun h => scanBack_of_no_selfjoin u rid rooms evs h⟩

/-- Witness for the amended C2: on the "join → leave" timeline the scan
deletes the room from both collections. -/
theorem backward_scan_removes_iff_any_selfjoin_witness :
    scanBack exUser exRid cexRooms cexTimeline.reverse =
      { Join := mapDelete cexRooms.Join exRid, Invite := mapDelete cexRooms.Invite exRid } :=
  (backward_scan_removes_iff_any_selfjoin exUser exRid cexRooms cexTimeline.reverse).1
    (by decide) (by decide)

/-- Claim C3: with the empty-string cursor sentinel, `ProcessResponse` leaves
the Room State Table (indeed the whole syncer) unchanged, invokes zero
listeners (empty trace), leaves the response untouched, and returns no
error. -/
theorem first_sync_discarded (s : DefaultSyncer) (resp : Option RespSync) :
    ProcessResponse s resp "" = Outcome.ok s resp [] :=
  rfl

/-- Claim C4: on a normal return the trace of listener invocations is, room
by room in response order, all the room's state events (in list order)
strictly before all its timeline events (in list order), each event
dispatched to the listeners of its type in registration order
(`dispatchTrace` maps over the listener list; `OnEventType` appends to
it). -/
theorem dispatch_order_state_before_timeline (s : DefaultSyncer) (r : RespSync) (since : String)
    (s' : DefaultSyncer) (rr : Option RespSync) (tr : List (Nat × Event))
    (hs : since ≠ "")
    (hok : ProcessResponse s (some r) since = Outcome.ok s' rr tr) :
    (tr = joinTrace s (suppressReplays s.UserID r.Rooms).Join
        ++ inviteTrace s (suppressReplays s.UserID r.Rooms).Invite ∧
    (∀ ty cb, mapLookup (s.OnEventType ty cb).listeners ty =
      some ((mapLookup s.listeners ty).getD [] ++ [cb]))) := by
  constructor
  · rw [ProcessResponse_some s r since hs] at hok
    rcases hb : processBody s { r with Rooms := suppressReplays s.UserID r.Rooms } with f | pr
    · simp only [hb] at hok
      exact Outcome.noConfusion hok
    · obtain ⟨s2, t2⟩ := pr
      simp only [hb, Outcome.ok.injEq] at hok
      obtain ⟨hs2, hrr, htr⟩ := hok
      obtain ⟨hU, hL, hR, hT⟩ := processBody_ok hb
      rw [← htr, hT]
  · intro ty cb
    rcases hl : mapLookup s.listeners ty with _ | ls <;>
      simp [DefaultSyncer.OnEventType, hl, mapLookup_mapSet_self]

/-- Witness for C4: the spec's example scenario — one state event (name) and
one timeline event (message) with one listener each: the trace is the name
invocation then the message invocation, and registering a second listener
appends it after the first. -/
theorem dispatch_order_state_before_timeline_witness :
    wDispatchTrace = joinTrace wDispatchSyncer (suppressReplays exUser wDispatchResp.Rooms).Join
        ++ inviteTrace wDispatchSyncer (suppressReplays exUser wDispatchResp.Rooms).Invite ∧
    mapLookup (wDispatchSyncer.OnEventType "m.room.name" boomListener).listeners "m.room.name" =
      some [nameListener, boomListener] := by
  obtain ⟨h1, h2⟩ := dispatch_order_state_before_timeline wDispatchSyncer wDispatchResp "s1"
    wDispatchSyncerAfter (some wDispatchResp) wDispatchTrace (by decide) (by rfl)
  exact ⟨h1, h2 "m.room.name" boomListener⟩

/-- Claim C5: state merging is last-write-wins per (type, state-key): when a
joined room's state-event list contains `e1` and later `e2` with the same
(type, state-key), and no later event of that key, then after a normal
`ProcessResponse` the room's state at that key is exactly the stamped `e2`
(so not the stamped `e1`); the room's final table entry arises from
`roomAfterState` over the STATE events alone, so timeline events are never
merged. -/
theorem state_merge_last_write_wins (s : DefaultSyncer) (r : RespSync) (since rid t k : String)
    (rd : JoinedRoomData) (pre mid post : List Event) (e1 e2 : Event)
    (s' : DefaultSyncer) (rr : Option RespSync) (tr : List (Nat × Event))
    (hs : since ≠ "")
    (hnd : (r.Rooms.Join.map Prod.fst).Nodup)
    (hmem : (rid, rd) ∈ r.Rooms.Join)
    (hnojoin : ∀ e ∈ rd.Timeline.Events, ¬ SelfJoin s.UserID e)
    (hinv : mapLookup r.Rooms.Invite rid = none)
    (hsplit : rd.State.Events = pre ++ e1 :: mid ++ e2 :: post)
    (_hk1 : e1.etype = t ∧ e1.stateKey = k)
    (hk2 : e2.etype = t ∧ e2.stateKey = k)
    (hpost : ∀ e ∈ post, ¬(e.etype = t ∧ e.stateKey = k))
    (hok : ProcessResponse s (some r) since = Outcome.ok s' rr tr) :
    (∃ room, mapLookup s'.Rooms rid = some room ∧
      mapLookup room.State (t, k) = some (stamp e2 rid) ∧
      (stamp e1 rid ≠ stamp e2 rid → mapLookup room.State (t, k) ≠ some (stamp e1 rid))) := by
  have hkeep := suppressReplays_keeps s.UserID r.Rooms rid (by
    intro p hp hp1 e he
    have hpe : p = (rid, rd) := nodup_key_entry_eq hnd hp hmem (by rw [hp1])
    rw [hpe] at he
    exact hnojoin e he)
  have hlook : mapLookup r.Rooms.Join rid = some rd := mapLookup_of_mem_nodup hnd hmem
  have hlook' : mapLookup (suppressReplays s.UserID r.Rooms).Join rid = some rd :=
    hkeep.1.trans hlook
  have hmem' : (rid, rd) ∈ (suppressReplays s.UserID r.Rooms).Join := mapLookup_mem hlook'
  have hnd' := suppressReplays_join_nodup s.UserID r.Rooms hnd
  have hinv' : mapLookup (suppressReplays s.UserID r.Rooms).Invite rid = none :=
    hkeep.2.trans hinv
  have hkI : ∀ q ∈ (suppressReplays s.UserID r.Rooms).Invite, q.1 ≠ rid :=
    (mapLookup_eq_none_iff _ _).mp hinv'
  rw [ProcessResponse_some s r since hs] at hok
  rcases hb : processBody s { r with Rooms := suppressReplays s.UserID r.Rooms } with f | pr
  · simp only [hb] at hok
    exact Outcome.noConfusion hok
  · obtain ⟨s2, t2⟩ := pr
    simp only [hb, Outcome.ok.injEq] at hok
    obtain ⟨hs2, hrr, htr⟩ := hok
    obtain ⟨hU, hL, hR, hT⟩ := processBody_ok hb
    have hfold : mapLookup s2.Rooms rid =
        some (roomAfterState rid (roomOrNew s.Rooms rid) rd.State.Events) := by
      rw [hR, inviteRoomsFold_lookup_not_mem hkI, joinRoomsFold_lookup_mem hnd' hmem']
    refine ⟨roomAfterState rid (roomOrNew s.Rooms rid) rd.State.Events, ?_, ?_, ?_⟩
    · rw [← hs2]
      exact hfold
    · rw [hsplit, roomAfterState_append]
      exact roomAfterState_lookup_last rid t k _ e2 post hk2 hpost
    · intro hne hcontra
      rw [hsplit, roomAfterState_append,
        roomAfterState_lookup_last rid t k _ e2 post hk2 hpost] at hcontra
      exact hne (Option.some.inj hcontra).symm

/-- Witness for C5: merging `[exNameEv, exNameEv2]` (same type "m.room.name"
and empty state-key) leaves exactly the stamped `exNameEv2` in the room's
state. -/
theorem state_merge_last_write_wins_witness :
    mapLookup wMergeRoom.State ("m.room.name", "") = some (stamp exNameEv2 exRid) ∧
    mapLookup wMergeRoom.State ("m.room.name", "") ≠ some (stamp exNameEv exRid) := by
  obtain ⟨room, h1, h2, h3⟩ := state_merge_last_write_wins emptySyncer wMergeResp "s1" exRid
    "m.room.name" "" wMergeData [] [] [] exNameEv exNameEv2 wMergeSyncerAfter
    (some wMergeResp) [] (by decide) (by decide) (by decide) (by decide) (by decide)
    (by decide) (by decide) (by decide) (by decide) (by rfl)
  have hr : mapLookup wMergeSyncerAfter.Rooms exRid = some wMergeRoom := rfl
  rw [hr] at h1
  obtain rfl := Option.some.inj h1
  exact ⟨h2, h3 (by decide)⟩

/-- Claim C6: a fault raised while merging state or invoking a listener
(any fault of the processing body) is caught at the recovery boundary of
the whole operation and converted into a returned error that carries the
identity (`userID`) and the cursor (`since`); the call returns
(`Outcome.err`) instead of propagating the panic. -/
theorem reducer_fault_converted_to_error (s : DefaultSyncer) (r : RespSync) (since f : String)
    (hs : since ≠ "")
    (hb : processBody s { r with Rooms := suppressReplays s.UserID r.Rooms } =
      Except.error f) :
    ProcessResponse s (some r) since =
      Outcome.err { userID := s.UserID, since := since, panicMsg := f }
        (some { r with Rooms := suppressReplays s.UserID r.Rooms }) := by
  rw [ProcessResponse_some s r since hs, hb]

/-- Witness for C6: the always-panicking listener makes the body fail with
"boom"; `ProcessResponse` returns the error naming the identity and the
cursor. -/
theorem reducer_fault_converted_to_error_witness :
    ProcessResponse wFaultSyncer (some wFaultResp) "s1" =
      Outcome.err { userID := exUser, since := "s1", panicMsg := "boom" } (some wFaultResp) :=
  reducer_fault_converted_to_error wFaultSyncer wFaultResp "s1" "boom" (by decide) (by rfl)

/-- Claim C7: the default failure policy returns a fixed wait of 10 seconds
(10000000000 nanoseconds) and no terminal error, for every response and
every error. -/
theorem failed_sync_fixed_backoff (s : DefaultSyncer) (res : Option RespSync) (err : String) :
    s.OnFailedSync res err = (10000000000, none) :=
  rfl

/-- Claim C8: whenever the replay-suppression rule fires for a room (some
self-membership "join" event is in its timeline), the room's entries are
deleted from the caller's response object: the response as seen after the
call no longer contains the room in either collection. -/
theorem suppression_mutates_response (s : DefaultSyncer) (r : RespSync) (since rid : String)
    (rd : JoinedRoomData)
    (hs : since ≠ "")
    (hnd : (r.Rooms.Join.map Prod.fst).Nodup)
    (hmem : (rid, rd) ∈ r.Rooms.Join)
    (hjoin : ∃ e ∈ rd.Timeline.Events, SelfJoin s.UserID e) :
    (∃ r2, Outcome.respOf (ProcessResponse s (some r) since) = some r2 ∧
      mapLookup r2.Rooms.Join rid = none ∧ mapLookup r2.Rooms.Invite rid = none) := by
  have hdel := suppressReplays_deletes s.UserID r.Rooms rid rd hmem hnd hjoin
  refine ⟨{ r with Rooms := suppressReplays s.UserID r.Rooms }, ?_, hdel.1, hdel.2⟩
  rw [ProcessResponse_some s r since hs]
  rcases hb : processBody s { r with Rooms := suppressReplays s.UserID r.Rooms } with f | pr
  · simp only [hb]
    rfl
  · obtain ⟨s2, t2⟩ := pr
    simp only [hb]
    rfl

/-- Witness for C8: on `wSuppressResp` the response visible after the call
is `wSuppressedRespAfter`, which no longer contains the room. -/
theorem suppression_mutates_response_witness :
    Outcome.respOf (ProcessResponse emptySyncer (some wSuppressResp) "s1") =
      some wSuppressedRespAfter ∧
    mapLookup wSuppressedRespAfter.Rooms.Join exRid = none ∧
    mapLookup wSuppressedRespAfter.Rooms.Invite exRid = none := by
  obtain ⟨r2, h1, h2, h3⟩ := suppression_mutates_response emptySyncer wSuppressResp "s1" exRid
    wSuppressData (by decide) (by decide) (by decide) (by decide)
  have hr : Outcome.respOf (ProcessResponse emptySyncer (some wSuppressResp) "s1") =
      some wSuppressedRespAfter := rfl
  rw [hr] at h1
  obtain rfl := Option.some.inj h1
  exact ⟨hr, h2, h3⟩

/-- Claim C9: the recovery boundary is installed only after the
replay-suppression pass, so a fault raised inside that pass — here the nil
response pointer dereferenced by `resp.Rooms.Join` — is not converted to a
returned error but escapes `ProcessResponse` as an uncaught panic. -/
theorem pass_fault_escapes_uncaught (s : DefaultSyncer) (since : String) (hs : since ≠ "") :
    ProcessResponse s none since = Outcome.panicked nilDerefMsg := by
  unfold ProcessResponse shouldProcessResponse
  rw [if_neg hs]

/-- Witness for C9: a nil response with a real cursor makes the call panic
uncaught. -/
theorem pass_fault_escapes_uncaught_witness :
    ProcessResponse emptySyncer none "s1" = Outcome.panicked nilDerefMsg :=
  pass_fault_escapes_uncaught emptySyncer "s1" (by decide)

/-- Claim C10: during the backward scan a self-membership event whose
membership field is absent or not a string (`membershipString` is `none`)
is skipped without faulting and without determining membership: the scan of
the remaining (older) events is unchanged. -/
theorem invalid_membership_skipped (u rid : String) (rooms : SyncRooms) (e : Event)
    (older : List Event) (h1 : e.etype = "m.room.member") (h2 : e.stateKey = u)
    (hm : membershipString e = none) :
    scanBack u rid rooms (e :: older) = scanBack u rid rooms older := by
  simp [scanBack, h1, h2, hm]

/-- Witness for C10: a self-membership event with a non-string membership is
skipped by the scan. -/
theorem invalid_membership_skipped_witness :
    scanBack exUser exRid cexRooms (badMemberEvent :: cexTimeline.reverse) =
      scanBack exUser exRid cexRooms cexTimeline.reverse :=
  invalid_membership_skipped exUser exRid cexRooms badMemberEvent cexTimeline.reverse
    (by decide) (by decide) (by decide)

end Gomatrix
